import Mathlib

/-!
Shallow embedding of `gdbcheck/gdbcheck.py` (the `gdb-check` tool).

The program is a sequential orchestration pipeline.  We model one run of
`main` as a pure function from an environment (the outputs and exit codes of
the external processes it talks to) to a trace of observable events plus an
outcome.  Events record, in program order:
  * every line written to standard output,
  * every command line handed to the process runner `execute` (together with
    whether it was actually executed or only printed, and whether a non-zero
    exit is fatal),
  * every `subprocess.check_output` git query (`rev-parse`, `log`,
    `rev-list`), which bypass the runner and always execute,
  * the creation of the temporary results directory (`tempfile.mkdtemp`),
  * the pre-run `time.sleep(2)`.
The outcome is `ok`, `exit1` (the `sys.exit(1)` on reference-resolution
failure), or `abort line` (an uncaught `subprocess.CalledProcessError`
raised by `subprocess.check_call` for `line`).

String operations are modelled over `String.data` (lists of characters) with
structurally recursive helpers, mirroring the corresponding Python string
operations (`" ".join`, `str.split("\n")`, `str.replace("'", ...)`,
`os.path.join`, `shlex.quote`, `"{:02}".format`).
-/

namespace GdbCheck

/-- Python `" ".join(cmd)`. -/
def joinSpace : List String → String
  | [] => ""
  | [x] => x
  | x :: xs => x ++ " " ++ joinSpace xs

/-- Boolean list-prefix test, structurally recursive. -/
def listIsPre : List Char → List Char → Bool
  | [], _ => true
  | _ :: _, [] => false
  | a :: as, b :: bs => a == b && listIsPre as bs

/-- Does the string `s` start with `p`? -/
def strStartsWith (p s : String) : Bool := listIsPre p.data s.data

/-- Python `str.split(sep)` for a one-character separator: never returns an
empty list (`"".split(sep) == [""]`). -/
def splitOnChar (sep : Char) : List Char → List (List Char)
  | [] => [[]]
  | c :: cs =>
    let r := splitOnChar sep cs
    if c == sep then [] :: r
    else
      match r with
      | [] => [[c]]
      | h :: t => (c :: h) :: t

/-- The single-quote character, `'`. -/
def sq : String := String.mk [Char.ofNat 39]

/-- Characters `shlex.quote` considers safe: the ASCII `\w` class plus
at-sign, percent, plus, equals, colon, comma, dot, slash and hyphen
(CPython `shlex._find_unsafe` with `re.ASCII`). -/
def shlexSafeChar (c : Char) : Bool :=
  c.isAlpha || c.isDigit || "_@%+=:,./-".data.contains c

/-- The string a single quote is replaced by inside `shlex.quote`:
`'"'"'`. -/
def sqEsc : String := sq ++ "\"" ++ sq ++ "\"" ++ sq

/-- Python `s.replace("'", "'\"'\"'")`, character by character (the pattern
is a single character, so per-character expansion is exact). -/
def replaceSqChars : List Char → List Char
  | [] => []
  | c :: cs => (if c == Char.ofNat 39 then sqEsc.data else [c]) ++ replaceSqChars cs

/-- CPython `shlex.quote`. -/
def shlexQuote (s : String) : String :=
  if s = "" then sq ++ sq
  else if s.data.all shlexSafeChar then s
  else sq ++ String.mk (replaceSqChars s.data) ++ sq

/-- Does the string end with a path separator? -/
def endsWithSlash (s : String) : Bool := s.data.getLast? == some (Char.ofNat 47)

/-- CPython `posixpath.join` for two components. -/
def os_path_join (a b : String) : String :=
  if strStartsWith "/" b then b
  else if a = "" || endsWithSlash a then a ++ b
  else a ++ "/" ++ b

/-- Python `"{:02}".format(i)`: the decimal representation of `i`,
zero-padded on the left to width two. -/
def pad2 (i : Nat) : String :=
  let s := Nat.repr i
  if s.length < 2 then "0" ++ s else s

/-- Observable events of one run, in program order. -/
inductive Event where
  /-- A line written to standard output (`print` / `cprint`; for `cprint`
  we record the message text, not the surrounding colour escape codes). -/
  | print (line : String)
  /-- The runner `execute(cmd, dry_run, check)` printed the joined command
  `line` and, when `executed = true` (a non-dry run), ran it through the
  shell; `check` records whether a non-zero exit raises. -/
  | exec (line : String) (check : Bool) (executed : Bool)
  /-- A `subprocess.check_output` git invocation with the given argument
  list; these bypass the runner and execute even in dry-run mode. -/
  | gitOut (args : List String)
  /-- `tempfile.mkdtemp(prefix="gdb-check")` created the results directory. -/
  | mkdtemp
  /-- `time.sleep(2)`. -/
  | sleep
  deriving Repr, DecidableEq, Inhabited

/-- How the run ended. -/
inductive Outcome where
  /-- Fell off the end of `main`. -/
  | ok
  /-- `sys.exit(1)` (revision-resolution failure). -/
  | exit1
  /-- Uncaught `subprocess.CalledProcessError` from `check_call` on `line`. -/
  | abort (line : String)
  deriving Repr, DecidableEq, Inhabited

/-- A program fragment: the events it emits and how it ends. -/
abbrev Prog := List Event × Outcome

/-- Behaviour of the external world during one run. -/
structure Env where
  /-- Stripped stdout of `git -C src rev-parse ref`; `none` models a
  non-zero exit (`CalledProcessError`). -/
  revParse : String → Option String
  /-- Stripped stdout of `git -C src log --format=... -n 1 commit`. -/
  commitSummary : String → String
  /-- Stripped stdout of `git -C src rev-list --reverse before^..after`. -/
  revListOut : String → String → String
  /-- Shell exit status of a command line run by the runner. -/
  exitCode : String → Nat
  /-- The directory name `tempfile.mkdtemp` returns. -/
  tempDir : String

/-- Sequential composition: if `a` aborted, `b` never runs. -/
def andThen (a b : Prog) : Prog :=
  match a.2 with
  | .ok => (a.1 ++ b.1, b.2)
  | .exit1 => (a.1, .exit1)
  | .abort l => (a.1, .abort l)

/-- A bare `print` (or `cprint`) statement. -/
def pr (s : String) : Prog := ([ .print s], .ok)

/-- `execute(cmd, dry_run, check)` from the source: print the joined line;
in a dry run stop there; otherwise run it, aborting on a non-zero exit only
when `check` holds. -/
def execute (env : Env) (cmd : List String) (dry_run : Bool) (check : Bool) : Prog :=
  let line := joinSpace cmd
  if dry_run then ([ .exec line check false], .ok)
  else if check && env.exitCode line != 0 then ([ .exec line check true], .abort line)
  else ([ .exec line check true], .ok)

/-- `checkout(repo_path, commit, dry_run)`. -/
def checkout (env : Env) (repo_path commit : String) (dry_run : Bool) : Prog :=
  execute env ["git", "-C", repo_path, "checkout", commit] dry_run true

/-- `make(build_path, j, dry_run)`. -/
def make (env : Env) (build_path : String) (j : Int) (dry_run : Bool) : Prog :=
  execute env ["make", "-C", build_path, "MAKEINFO=true", "-j", Int.repr j] dry_run true

/-- The `RUNTESTFLAGS=...` argument `make_check` builds: the flags are
shell-quoted only when non-empty. -/
def runtestflags_field (runtest_flags : String) : String :=
  "RUNTESTFLAGS=" ++ (if runtest_flags.length > 0 then shlexQuote runtest_flags else runtest_flags)

/-- The command list `make_check` hands to the runner. -/
def make_check_cmd (build_path runtest_flags tests : String) : List String :=
  let p := os_path_join build_path "gdb"
  let cmd := ["make", "-C", p, "check", runtestflags_field runtest_flags]
  if tests.length > 0 then cmd ++ ["TESTS=\"" ++ tests ++ "\""] else cmd

/-- `make_check(build_path, runtest_flags, tests, dry_run)`: note
`check=False` — a failing test harness does not abort the run. -/
def make_check (env : Env) (build_path runtest_flags tests : String) (dry_run : Bool) : Prog :=
  execute env (make_check_cmd build_path runtest_flags tests) dry_run false

/-- `copy(source, dest, dry_run)`. -/
def copy (env : Env) (source dest : String) (dry_run : Bool) : Prog :=
  execute env ["cp", source, dest] dry_run true

/-- The immutable per-revision parameter bundle (`class BuildAndTestSpec`). -/
structure BuildAndTestSpec where
  src_path : String
  build_path : String
  results_path : String
  sha1 : String
  j : Int
  runtest_flags : String
  tests : String
  deriving Repr, DecidableEq, Inhabited

/-- `spec.short_sha1`: the first twelve characters of the revision id. -/
def BuildAndTestSpec.short_sha1 (s : BuildAndTestSpec) : String :=
  String.mk (s.sha1.data.take 12)

/-- `os.path.join(build_path, "gdb", "testsuite", "gdb.sum")`. -/
def sum_src (build_path : String) : String :=
  os_path_join (os_path_join (os_path_join build_path "gdb") "testsuite") "gdb.sum"

/-- `os.path.join(build_path, "gdb", "testsuite", "gdb.log")`. -/
def log_src (build_path : String) : String :=
  os_path_join (os_path_join (os_path_join build_path "gdb") "testsuite") "gdb.log"

/-- `test_spec(spec, suffix, dry_run)`: checkout, build, test, copy the two
result files, in that order, stopping at the first fatal failure. -/
def test_spec (env : Env) (spec : BuildAndTestSpec) (suffix : String) (dry_run : Bool) : Prog :=
  andThen (pr (">>> Checking out " ++ spec.short_sha1)) <|
  andThen (checkout env spec.src_path spec.sha1 dry_run) <|
  andThen (pr ">>> Making") <|
  andThen (make env spec.build_path spec.j dry_run) <|
  andThen (pr ">>> Make checking") <|
  andThen (make_check env spec.build_path spec.runtest_flags spec.tests dry_run) <|
  andThen (pr ">>> Copying results") <|
  andThen (copy env (sum_src spec.build_path) (spec.results_path ++ "/gdb.sum." ++ suffix) dry_run) <|
  copy env (log_src spec.build_path) (spec.results_path ++ "/gdb.log." ++ suffix) dry_run

/-- `compare_results(before, after)`: the three diff-tool invocation lines. -/
def compare_results (before after : String) : Prog :=
  ([ .print ("  meld " ++ before ++ " " ++ after),
     .print ("  kdiff3 " ++ before ++ " " ++ after),
     .print ("  diff -u " ++ before ++ " " ++ after)], .ok)

/-- Argument list of `git rev-parse` as built by `resolve_to_sha1`. -/
def rev_parse_cmd (repo_path commit : String) : List String :=
  ["git", "-C", repo_path, "rev-parse", commit]

/-- Argument list of `git log` as built by `get_commit_summary`. -/
def log_cmd (repo_path commit : String) : List String :=
  ["git", "-C", repo_path, "log", "--format=%aN  %s", "-n", "1", commit]

/-- Argument list of `git rev-list` as built by `get_rev_list`. -/
def rev_list_cmd (repo_path before after : String) : List String :=
  ["git", "-C", repo_path, "rev-list", "--reverse", before ++ "^.." ++ after]

/-- Value returned by `get_rev_list`: the stripped `rev-list` output split on
newlines (never the empty list, as in Python). -/
def get_rev_list (env : Env) (before after : String) : List String :=
  (splitOnChar (Char.ofNat 10) (env.revListOut before after).data).map String.mk

/-- Command-line arguments after `argparse` (field names follow the
`args` dictionary in `main`). -/
structure Args where
  before_ref : String
  after_ref : String
  j : Int
  dry_run : Bool
  runtestflags : String
  runtestflags_before : String
  runtestflags_after : String
  tests : String
  source : String
  build : String
  all_commits : Bool
  deriving Repr, DecidableEq, Inhabited

/-- The results path `main` uses: a fresh temporary directory, or the
literal placeholder in a dry run. -/
def results_path_of (env : Env) (args : Args) : String :=
  if args.dry_run then "<temp_dir>" else env.tempDir

/-- The ordered list `specs_to_test` built by `main`: one spec per revision
in range in `--all-commits` mode, otherwise the before/after pair (whose
flag strings join the per-side value and the global value with a space). -/
def specsToTest (env : Env) (args : Args) (results_path before_sha1 after_sha1 : String) :
    List BuildAndTestSpec :=
  if args.all_commits then
    (get_rev_list env before_sha1 after_sha1).map fun sha1 =>
      ⟨args.source, args.build, results_path, sha1, args.j, args.runtestflags, args.tests⟩
  else
    [⟨args.source, args.build, results_path, before_sha1, args.j,
      args.runtestflags_before ++ " " ++ args.runtestflags, args.tests⟩,
     ⟨args.source, args.build, results_path, after_sha1, args.j,
      args.runtestflags_after ++ " " ++ args.runtestflags, args.tests⟩]

/-- The suffix `"{:02}-{}".format(i, spec.short_sha1)` used for the result
files of the spec at position `i`. -/
def suffixOf (i : Nat) (s : BuildAndTestSpec) : String :=
  pad2 i ++ "-" ++ s.short_sha1

/-- The `for i, spec in enumerate(specs_to_test)` loop of `main`, with the
running index made explicit. -/
def runSpecsFrom (env : Env) (dry_run : Bool) : Nat → List BuildAndTestSpec → Prog
  | _, [] => ([], .ok)
  | i, spec :: rest =>
    andThen (test_spec env spec (suffixOf i spec) dry_run)
      (runSpecsFrom env dry_run (i + 1) rest)

/-- A result filename as the reporter renders it:
`"{}/gdb.sum.{:02}-{}".format(results_path, i, s.short_sha1)`. -/
def reporter_sum_file (results_path : String) (i : Nat) (s : BuildAndTestSpec) : String :=
  results_path ++ "/gdb.sum." ++ pad2 i ++ "-" ++ s.short_sha1

/-- The reporter printed after all specs finish: adjacent-pair comparison
blocks when more than two specs ran, then the first/last block. -/
def report (results_path : String) (specs : List BuildAndTestSpec) : Prog :=
  ([ .print "You can run one of these commands to view differences in test results.",
     .print ""]
   ++ (if specs.length > 2 then
        [ .print "Incremental results:", .print ""] ++
        ((specs.dropLast.zip specs.tail).enum.map fun p =>
          (compare_results (reporter_sum_file results_path p.1 p.2.1)
                           (reporter_sum_file results_path (p.1 + 1) p.2.2)).1
            ++ [ .print ""]).flatten
      else []) ++
   [ .print "Results between before and after:", .print ""] ++
   (compare_results (reporter_sum_file results_path 0 specs.head!)
                    (reporter_sum_file results_path (specs.length - 1) specs.getLast!)).1,
   .ok)

/-- Header lines `main` prints after resolving the endpoints (each summary
line is preceded by the `git log` query that produces it); the two-spec
branch shows `before_spec.short_sha1`, i.e. the first twelve characters of
the resolved id. -/
def header_events (env : Env) (args : Args) (before_sha1 after_sha1 : String)
    (specs : List BuildAndTestSpec) : List Event :=
  if args.all_commits then
    [ .print "Test all commits between:",
      .gitOut (log_cmd args.source specs.head!.sha1),
      .print ("  " ++ specs.head!.short_sha1 ++ "  " ++ env.commitSummary specs.head!.sha1),
      .gitOut (log_cmd args.source specs.getLast!.sha1),
      .print ("  " ++ specs.getLast!.short_sha1 ++ "  " ++ env.commitSummary specs.getLast!.sha1)]
  else
    [ .gitOut (log_cmd args.source before_sha1),
      .print ("Before: " ++ String.mk (before_sha1.data.take 12) ++ "  "
              ++ env.commitSummary before_sha1),
      .gitOut (log_cmd args.source after_sha1),
      .print ("After:  " ++ String.mk (after_sha1.data.take 12) ++ "  "
              ++ env.commitSummary after_sha1)]

/-- Everything `main` does after both endpoints resolve: the `rev-list`
query, the header, the pre-run sleep (non-dry only), the per-spec loop and
the final report. -/
def mainBody (env : Env) (args : Args) (results_path before_sha1 after_sha1 : String) : Prog :=
  let specs := specsToTest env args results_path before_sha1 after_sha1
  andThen ([ .gitOut (rev_list_cmd args.source before_sha1 after_sha1)]
            ++ header_events env args before_sha1 after_sha1 specs
            ++ (if args.dry_run then [] else [ .sleep]), .ok) <|
  andThen (runSpecsFrom env args.dry_run 0 specs) <|
  report results_path specs

/-- The whole program: create (or fake) the results directory, resolve both
endpoints — exiting with code 1 on the first failure — then run the body. -/
def main (env : Env) (args : Args) : Prog :=
  let pre : List Event := if args.dry_run then [] else [ .mkdtemp]
  let results_path := results_path_of env args
  match env.revParse args.before_ref with
  | none => (pre ++ [ .gitOut (rev_parse_cmd args.source args.before_ref)], .exit1)
  | some before_sha1 =>
    match env.revParse args.after_ref with
    | none => (pre ++ [ .gitOut (rev_parse_cmd args.source args.before_ref),
                        .gitOut (rev_parse_cmd args.source args.after_ref)], .exit1)
    | some after_sha1 =>
      andThen (pre ++ [ .gitOut (rev_parse_cmd args.source args.before_ref),
                        .gitOut (rev_parse_cmd args.source args.after_ref)], .ok)
        (mainBody env args results_path before_sha1 after_sha1)

/-- Command lines the runner printed (executed or not), in order. -/
def execLines (t : List Event) : List String :=
  t.filterMap fun e =>
    match e with
    | .exec line _ _ => some line
    | _ => none

/-- Command lines the runner actually executed, in order. -/
def executedLines (t : List Event) : List String :=
  t.filterMap fun e =>
    match e with
    | .exec line _ true => some line
    | _ => none

/-- The `meld` comparison lines printed by the reporter, in order. -/
def meldLines (t : List Event) : List String :=
  t.filterMap fun e =>
    match e with
    | .print s => if strStartsWith "  meld " s then some s else none
    | _ => none

/-- References passed to `git rev-parse` over the run, in order. -/
def revParseRefs (t : List Event) : List String :=
  t.filterMap fun e =>
    match e with
    | .gitOut ["git", "-C", _, "rev-parse", c] => some c
    | _ => none

/-- The shell line of a `git checkout` step. -/
def checkout_line (repo_path commit : String) : String :=
  joinSpace ["git", "-C", repo_path, "checkout", commit]

/-- The shell line of a build step. -/
def make_line (build_path : String) (j : Int) : String :=
  joinSpace ["make", "-C", build_path, "MAKEINFO=true", "-j", Int.repr j]

/-- The shell line of a test-run step. -/
def make_check_line (build_path runtest_flags tests : String) : String :=
  joinSpace (make_check_cmd build_path runtest_flags tests)

/-- The shell line of a result-copy step. -/
def cp_line (source dest : String) : String :=
  joinSpace ["cp", source, dest]

/-- The five command lines of one checkout/build/test/copy cycle, in the
order the pipeline runs them. -/
def cycle_lines (spec : BuildAndTestSpec) (suffix : String) : List String :=
  [checkout_line spec.src_path spec.sha1,
   make_line spec.build_path spec.j,
   make_check_line spec.build_path spec.runtest_flags spec.tests,
   cp_line (sum_src spec.build_path) (spec.results_path ++ "/gdb.sum." ++ suffix),
   cp_line (log_src spec.build_path) (spec.results_path ++ "/gdb.log." ++ suffix)]

/-- The pairs of result files the reporter compares: adjacent pairs (when
more than two specs ran) followed by the first/last pair. -/
def report_pairs (results_path : String) (specs : List BuildAndTestSpec) :
    List (String × String) :=
  (if specs.length > 2 then
    (specs.dropLast.zip specs.tail).enum.map fun p =>
      (reporter_sum_file results_path p.1 p.2.1,
       reporter_sum_file results_path (p.1 + 1) p.2.2)
   else []) ++
  [(reporter_sum_file results_path 0 specs.head!,
    reporter_sum_file results_path (specs.length - 1) specs.getLast!)]

/-- Is `s` a plausible git object id: non-empty lower-case hexadecimal? -/
def isShaStr (s : String) : Bool :=
  !s.data.isEmpty && s.data.all fun c => c.isDigit || (Char.ofNat 97 ≤ c && c ≤ Char.ofNat 102)

/-- The events of one fully completed `test_spec` call, in order. -/
def test_spec_events (spec : BuildAndTestSpec) (suffix : String) (dry_run : Bool) : List Event :=
  [ .print (">>> Checking out " ++ spec.short_sha1),
    .exec (checkout_line spec.src_path spec.sha1) true (!dry_run),
    .print ">>> Making",
    .exec (make_line spec.build_path spec.j) true (!dry_run),
    .print ">>> Make checking",
    .exec (make_check_line spec.build_path spec.runtest_flags spec.tests) false (!dry_run),
    .print ">>> Copying results",
    .exec (cp_line (sum_src spec.build_path) (spec.results_path ++ "/gdb.sum." ++ suffix))
      true (!dry_run),
    .exec (cp_line (log_src spec.build_path) (spec.results_path ++ "/gdb.log." ++ suffix))
      true (!dry_run)]

/-- The events of the per-spec loop when every spec completed, in order. -/
def loop_events (i : Nat) (specs : List BuildAndTestSpec) (d : Bool) : List Event :=
  ((List.enumFrom i specs).map fun p => test_spec_events p.2 (suffixOf p.1 p.2) d).flatten

/-- The full event trace of a run in which both endpoints resolved and every
fatal step succeeded. -/
def main_ok_events (env : Env) (args : Args) (b a : String) : List Event :=
  (if args.dry_run then [] else [ .mkdtemp]) ++
  [ .gitOut (rev_parse_cmd args.source args.before_ref),
    .gitOut (rev_parse_cmd args.source args.after_ref),
    .gitOut (rev_list_cmd args.source b a)] ++
  header_events env args b a (specsToTest env args (results_path_of env args) b a) ++
  (if args.dry_run then [] else [ .sleep]) ++
  loop_events 0 (specsToTest env args (results_path_of env args) b a) args.dry_run ++
  (report (results_path_of env args) (specsToTest env args (results_path_of env args) b a)).1

/-- Numeric value of a decimal digit string read left to right, starting
from `acc`, following the recursion of `Nat.toDigitsCore`. -/
def pushDigits (acc n : Nat) : Nat :=
  if h : n < 10 then acc * 10 + n % 10
  else pushDigits acc (n / 10) * 10 + n % 10
termination_by n
decreasing_by exact Nat.div_lt_self (by omega) (by omega)

/-- Environment used by witnesses: everything resolves, every command
succeeds. -/
def envW : Env :=
  ⟨fun r => if r = "v1" then some "aaaabbbbccccddddeeeeffff0000111122223333" else
     if r = "v2" then some "0000111122223333aaaabbbbccccddddeeeeffff" else none,
   fun _ => "Jo Doe  fix the bug",
   fun _ _ => "aaaabbbbccccddddeeeeffff0000111122223333",
   fun _ => 0,
   "<temp_dir>"⟩

/-- Two-spec dry-run arguments used by witnesses. -/
def argsW : Args := ⟨"v1", "v2", 4, true, "", "", "", "", "/src", "/build", false⟩

/-- Spec value used by the C3 witness. -/
def specW3 : BuildAndTestSpec := ⟨"/s", "/b", "<temp_dir>", "abc123", 1, "", ""⟩

/-- Environment in which the build fails with exit status 2. -/
def envFailMake : Env :=
  ⟨fun _ => none, fun _ => "", fun _ _ => "",
   fun l => if l = make_line "/b" 1 then 2 else 0, "/tmp/x"⟩

/-- Environment in which the test harness exits with status 1. -/
def envFailCheck : Env :=
  ⟨fun _ => none, fun _ => "", fun _ _ => "",
   fun l => if l = make_check_line "/b" "" "" then 1 else 0, "/tmp/x"⟩

/-- Environment in which no reference resolves. -/
def envNoResolve : Env := ⟨fun _ => none, fun _ => "", fun _ _ => "", fun _ => 0, "/tmp"⟩

/-- `args` with the dry-run flag replaced. -/
def setDry (a : Args) (d : Bool) : Args :=
  ⟨a.before_ref, a.after_ref, a.j, d, a.runtestflags, a.runtestflags_before,
   a.runtestflags_after, a.tests, a.source, a.build, a.all_commits⟩

/-- `env` with the temporary-directory name replaced. -/
def setTempDir (e : Env) (t : String) : Env :=
  ⟨e.revParse, e.commitSummary, e.revListOut, e.exitCode, t⟩

/-- All-commits dry-run arguments used by witnesses. -/
def argsWAll : Args := ⟨"v1", "v2", 4, true, "", "", "", "", "/src", "/build", true⟩

theorem andThen_snd_ok {a b : Prog} :
    (andThen a b).2 = .ok ↔ a.2 = .ok ∧ b.2 = .ok := by
  rcases a with ⟨t, o⟩
  cases o <;> simp [andThen]

theorem andThen_of_ok {a b : Prog} (h : a.2 = .ok) :
    andThen a b = (a.1 ++ b.1, b.2) := by
  rcases a with ⟨t, o⟩
  cases o <;> simp_all [andThen]

theorem execute_fst (env : Env) (cmd : List String) (d ch : Bool) :
    (execute env cmd d ch).1 = [ .exec (joinSpace cmd) ch (!d)] := by
  cases d
  · unfold execute
    dsimp only
    split
    · simp_all
    · split <;> rfl
  · rfl

theorem execute_dry (env : Env) (cmd : List String) (ch : Bool) :
    execute env cmd true ch = ([ .exec (joinSpace cmd) ch false], .ok) := rfl

theorem execute_real_snd (env : Env) (cmd : List String) (ch : Bool) :
    (execute env cmd false ch).2 = .ok ↔ (ch = true → env.exitCode (joinSpace cmd) = 0) := by
  by_cases h : env.exitCode (joinSpace cmd) = 0 <;> cases ch <;> simp [execute, h]

theorem execute_real_abort (env : Env) (cmd : List String)
    (h : env.exitCode (joinSpace cmd) ≠ 0) :
    execute env cmd false true = ([ .exec (joinSpace cmd) true true], .abort (joinSpace cmd)) := by
  simp [execute, h]

theorem test_spec_dry (env : Env) (spec : BuildAndTestSpec) (suffix : String) :
    test_spec env spec suffix true = (test_spec_events spec suffix true, .ok) := by
  simp [test_spec, andThen, pr, checkout, make, make_check, copy, execute, test_spec_events,
        checkout_line, make_line, make_check_line, cp_line]

theorem test_spec_real_ok (env : Env) (spec : BuildAndTestSpec) (suffix : String)
    (hco : env.exitCode (checkout_line spec.src_path spec.sha1) = 0)
    (hmk : env.exitCode (make_line spec.build_path spec.j) = 0)
    (hcs : env.exitCode
      (cp_line (sum_src spec.build_path) (spec.results_path ++ "/gdb.sum." ++ suffix)) = 0)
    (hcl : env.exitCode
      (cp_line (log_src spec.build_path) (spec.results_path ++ "/gdb.log." ++ suffix)) = 0) :
    test_spec env spec suffix false = (test_spec_events spec suffix false, .ok) := by
  simp only [checkout_line, make_line, make_check_line, cp_line] at hco hmk hcs hcl
  simp [test_spec, andThen, pr, checkout, make, make_check, copy, execute, test_spec_events,
        checkout_line, make_line, make_check_line, cp_line, hco, hmk, hcs, hcl]

theorem test_spec_real_snd_ok (env : Env) (spec : BuildAndTestSpec) (suffix : String)
    (h : (test_spec env spec suffix false).2 = .ok) :
    env.exitCode (checkout_line spec.src_path spec.sha1) = 0 ∧
    env.exitCode (make_line spec.build_path spec.j) = 0 ∧
    env.exitCode
      (cp_line (sum_src spec.build_path) (spec.results_path ++ "/gdb.sum." ++ suffix)) = 0 ∧
    env.exitCode
      (cp_line (log_src spec.build_path) (spec.results_path ++ "/gdb.log." ++ suffix)) = 0 := by
  simp only [test_spec, andThen_snd_ok, pr, checkout, make, make_check, copy,
    execute_real_snd] at h
  simp only [checkout_line, make_line, make_check_line, cp_line]
  refine ⟨?_, ?_, ?_, ?_⟩ <;> tauto

theorem test_spec_fst_of_ok (env : Env) (spec : BuildAndTestSpec) (suffix : String)
    (d : Bool) (h : (test_spec env spec suffix d).2 = .ok) :
    (test_spec env spec suffix d).1 = test_spec_events spec suffix d := by
  cases d
  · obtain ⟨hco, hmk, hcs, hcl⟩ := test_spec_real_snd_ok env spec suffix h
    rw [test_spec_real_ok env spec suffix hco hmk hcs hcl]
  · rw [test_spec_dry]

theorem runSpecsFrom_dry_snd (env : Env) (i : Nat) (specs : List BuildAndTestSpec) :
    (runSpecsFrom env true i specs).2 = .ok := by
  induction specs generalizing i with
  | nil => rfl
  | cons s rest ih => simp [runSpecsFrom, andThen_snd_ok, test_spec_dry, ih]

theorem runSpecsFrom_fst_of_ok (env : Env) (d : Bool) (i : Nat)
    (specs : List BuildAndTestSpec) (h : (runSpecsFrom env d i specs).2 = .ok) :
    (runSpecsFrom env d i specs).1 = loop_events i specs d := by
  induction specs generalizing i with
  | nil => rfl
  | cons s rest ih =>
    rw [runSpecsFrom] at h ⊢
    obtain ⟨h1, h2⟩ := andThen_snd_ok.mp h
    rw [andThen_of_ok h1]
    show (test_spec env s (suffixOf i s) d).1 ++ (runSpecsFrom env d (i + 1) rest).1 = _
    rw [test_spec_fst_of_ok env s _ d h1, ih _ h2]
    simp [loop_events, List.enumFrom]

theorem report_snd (rp : String) (specs : List BuildAndTestSpec) :
    (report rp specs).2 = .ok := rfl

theorem main_resolve (env : Env) (args : Args) (b a : String)
    (hb : env.revParse args.before_ref = some b)
    (ha : env.revParse args.after_ref = some a) :
    main env args =
      andThen ((if args.dry_run then [] else [ .mkdtemp]) ++
          [ .gitOut (rev_parse_cmd args.source args.before_ref),
            .gitOut (rev_parse_cmd args.source args.after_ref)], .ok)
        (mainBody env args (results_path_of env args) b a) := by
  simp [main, hb, ha]

theorem main_snd_ok_iff (env : Env) (args : Args) (b a : String)
    (hb : env.revParse args.before_ref = some b)
    (ha : env.revParse args.after_ref = some a) :
    (main env args).2 = .ok ↔
      (runSpecsFrom env args.dry_run 0
        (specsToTest env args (results_path_of env args) b a)).2 = .ok := by
  rw [main_resolve env args b a hb ha]
  simp [andThen_snd_ok, mainBody, report]

theorem main_fst_of_ok (env : Env) (args : Args) (b a : String)
    (hb : env.revParse args.before_ref = some b)
    (ha : env.revParse args.after_ref = some a)
    (hok : (main env args).2 = .ok) :
    (main env args).1 = main_ok_events env args b a := by
  have hloop := (main_snd_ok_iff env args b a hb ha).mp hok
  rw [main_resolve env args b a hb ha]
  rw [andThen_of_ok (by rfl)]
  show _ ++ (mainBody env args (results_path_of env args) b a).1 = _
  rw [mainBody]
  rw [andThen_of_ok (by rfl)]
  show _ ++ (_ ++ (andThen (runSpecsFrom env args.dry_run 0 _) (report _ _)).1) = _
  rw [andThen_of_ok hloop]
  show _ ++ (_ ++ ((runSpecsFrom env args.dry_run 0 _).1 ++ (report _ _).1)) = _
  rw [runSpecsFrom_fst_of_ok env args.dry_run 0 _ hloop]
  simp [main_ok_events]

theorem main_dry_snd (env : Env) (args : Args) (b a : String)
    (hd : args.dry_run = true)
    (hb : env.revParse args.before_ref = some b)
    (ha : env.revParse args.after_ref = some a) :
    (main env args).2 = .ok := by
  rw [main_snd_ok_iff env args b a hb ha, hd]
  exact runSpecsFrom_dry_snd env 0 _

theorem execLines_append (l₁ l₂ : List Event) :
    execLines (l₁ ++ l₂) = execLines l₁ ++ execLines l₂ := by
  simp [execLines]

theorem executedLines_append (l₁ l₂ : List Event) :
    executedLines (l₁ ++ l₂) = executedLines l₁ ++ executedLines l₂ := by
  simp [executedLines]

theorem meldLines_append (l₁ l₂ : List Event) :
    meldLines (l₁ ++ l₂) = meldLines l₁ ++ meldLines l₂ := by
  simp [meldLines]

theorem revParseRefs_append (l₁ l₂ : List Event) :
    revParseRefs (l₁ ++ l₂) = revParseRefs l₁ ++ revParseRefs l₂ := by
  simp [revParseRefs]

theorem execLines_flatten (L : List (List Event)) :
    execLines L.flatten = (L.map execLines).flatten := by
  induction L with
  | nil => rfl
  | cons h t ih => simp [execLines_append, ih]

theorem executedLines_flatten (L : List (List Event)) :
    executedLines L.flatten = (L.map executedLines).flatten := by
  induction L with
  | nil => rfl
  | cons h t ih => simp [executedLines_append, ih]

theorem meldLines_flatten (L : List (List Event)) :
    meldLines L.flatten = (L.map meldLines).flatten := by
  induction L with
  | nil => rfl
  | cons h t ih => simp [meldLines_append, ih]

theorem execLines_test_spec_events (spec : BuildAndTestSpec) (suffix : String) (d : Bool) :
    execLines (test_spec_events spec suffix d) = cycle_lines spec suffix := rfl

theorem executedLines_test_spec_events_real (spec : BuildAndTestSpec) (suffix : String) :
    executedLines (test_spec_events spec suffix false) = cycle_lines spec suffix := rfl

theorem executedLines_test_spec_events_dry (spec : BuildAndTestSpec) (suffix : String) :
    executedLines (test_spec_events spec suffix true) = [] := rfl

theorem listIsPre_self_append (p m : List Char) : listIsPre p (p ++ m) = true := by
  induction p with
  | nil => rfl
  | cons a as ih => simp [listIsPre, ih]

theorem strStartsWith_append_self (p m : String) : strStartsWith p (p ++ m) = true := by
  rw [strStartsWith, String.data_append]
  exact listIsPre_self_append p.data m.data

theorem listIsPre_append_false (p q m : List Char) (hlen : p.length ≤ q.length)
    (h : listIsPre p q = false) : listIsPre p (q ++ m) = false := by
  induction p generalizing q with
  | nil => simp [listIsPre] at h
  | cons a as ih =>
    cases q with
    | nil => simp at hlen
    | cons b bs =>
      simp only [List.cons_append, listIsPre, Bool.and_eq_false_iff] at h ⊢
      rcases h with h | h
      · exact Or.inl h
      · exact Or.inr (ih bs (by simpa using hlen) h)

theorem strStartsWith_lit_false (p q x : String) (hlen : p.data.length ≤ q.data.length)
    (h : listIsPre p.data q.data = false) : strStartsWith p (q ++ x) = false := by
  rw [strStartsWith, String.data_append]
  exact listIsPre_append_false _ _ _ hlen h

theorem joinSpace_cons_cons (x y : String) (t : List String) :
    joinSpace (x :: y :: t) = (x ++ " ") ++ joinSpace (y :: t) := rfl

theorem startsWith_git_checkout (r c : String) :
    strStartsWith "git" (checkout_line r c) = true := by
  rw [checkout_line, joinSpace_cons_cons]
  have e : ("git" ++ " ") ++ joinSpace ["-C", r, "checkout", c] =
      "git" ++ (" " ++ joinSpace ["-C", r, "checkout", c]) := String.append_assoc ..
  rw [e]
  exact strStartsWith_append_self _ _

theorem startsWith_git_make (bp : String) (j : Int) :
    strStartsWith "git" (make_line bp j) = false := by
  rw [make_line, joinSpace_cons_cons]
  exact strStartsWith_lit_false _ _ _ (by decide) (by decide)

theorem startsWith_git_make_check (bp f t : String) :
    strStartsWith "git" (make_check_line bp f t) = false := by
  rw [make_check_line, make_check_cmd]
  by_cases h : t.length > 0
  · rw [if_pos h]
    simp only [List.cons_append, List.nil_append]
    rw [joinSpace_cons_cons]
    exact strStartsWith_lit_false _ _ _ (by decide) (by decide)
  · rw [if_neg h, joinSpace_cons_cons]
    exact strStartsWith_lit_false _ _ _ (by decide) (by decide)

theorem startsWith_git_cp (s d : String) :
    strStartsWith "git" (cp_line s d) = false := by
  rw [cp_line, joinSpace_cons_cons]
  exact strStartsWith_lit_false _ _ _ (by decide) (by decide)

theorem startsWith_cp_cp (s d : String) :
    strStartsWith "cp" (cp_line s d) = true := by
  rw [cp_line, joinSpace_cons_cons]
  have e : ("cp" ++ " ") ++ joinSpace [s, d] = "cp" ++ (" " ++ joinSpace [s, d]) :=
    String.append_assoc ..
  rw [e]
  exact strStartsWith_append_self _ _

theorem startsWith_cp_checkout (r c : String) :
    strStartsWith "cp" (checkout_line r c) = false := by
  rw [checkout_line, joinSpace_cons_cons]
  exact strStartsWith_lit_false _ _ _ (by decide) (by decide)

theorem startsWith_cp_make (bp : String) (j : Int) :
    strStartsWith "cp" (make_line bp j) = false := by
  rw [make_line, joinSpace_cons_cons]
  exact strStartsWith_lit_false _ _ _ (by decide) (by decide)

theorem startsWith_cp_make_check (bp f t : String) :
    strStartsWith "cp" (make_check_line bp f t) = false := by
  rw [make_check_line, make_check_cmd]
  by_cases h : t.length > 0
  · rw [if_pos h]
    simp only [List.cons_append, List.nil_append]
    rw [joinSpace_cons_cons]
    exact strStartsWith_lit_false _ _ _ (by decide) (by decide)
  · rw [if_neg h, joinSpace_cons_cons]
    exact strStartsWith_lit_false _ _ _ (by decide) (by decide)

theorem filter_git_cycle (spec : BuildAndTestSpec) (suffix : String) :
    (cycle_lines spec suffix).filter (fun l => strStartsWith "git" l) =
      [checkout_line spec.src_path spec.sha1] := by
  simp [cycle_lines, List.filter, startsWith_git_checkout, startsWith_git_make,
    startsWith_git_make_check, startsWith_git_cp]

theorem filter_cp_cycle (spec : BuildAndTestSpec) (suffix : String) :
    (cycle_lines spec suffix).filter (fun l => strStartsWith "cp" l) =
      [cp_line (sum_src spec.build_path) (spec.results_path ++ "/gdb.sum." ++ suffix),
       cp_line (log_src spec.build_path) (spec.results_path ++ "/gdb.log." ++ suffix)] := by
  simp [cycle_lines, List.filter, startsWith_cp_cp, startsWith_cp_checkout,
    startsWith_cp_make, startsWith_cp_make_check]

theorem digitChar_toNat (m : Nat) (h : m < 10) : (Nat.digitChar m).toNat - 48 = m := by
  interval_cases m <;> rfl

theorem digit_foldl_toDigitsCore (fuel : Nat) :
    ∀ (n : Nat) (ds : List Char) (acc : Nat), n < fuel →
      (Nat.toDigitsCore 10 fuel n ds).foldl (fun a c => a * 10 + (c.toNat - 48)) acc =
        ds.foldl (fun a c => a * 10 + (c.toNat - 48)) (pushDigits acc n) := by
  induction fuel with
  | zero => omega
  | succ fuel ih =>
    intro n ds acc hn
    rw [Nat.toDigitsCore]
    by_cases h : n / 10 = 0
    · rw [if_pos h, List.foldl_cons, digitChar_toNat _ (Nat.mod_lt _ (by omega))]
      rw [pushDigits]
      rw [dif_pos (by omega)]
    · rw [if_neg h]
      rw [ih (n / 10) _ acc (by omega)]
      rw [List.foldl_cons, digitChar_toNat _ (Nat.mod_lt _ (by omega))]
      conv_rhs => rw [pushDigits]
      rw [dif_neg (by omega)]

theorem pushDigits_zero (n : Nat) : pushDigits 0 n = n := by
  induction n using Nat.strong_induction_on with
  | _ n ih =>
    rw [pushDigits]
    by_cases h : n < 10
    · rw [dif_pos h]; omega
    · rw [dif_neg h, ih (n / 10) (Nat.div_lt_self (by omega) (by omega))]; omega

theorem repr_foldl (n : Nat) :
    (Nat.repr n).data.foldl (fun a c => a * 10 + (c.toNat - 48)) 0 = n := by
  show ((Nat.toDigits 10 n).asString).data.foldl _ 0 = n
  have hdata : ((Nat.toDigits 10 n).asString).data = Nat.toDigits 10 n := rfl
  rw [hdata, Nat.toDigits, digit_foldl_toDigitsCore (n + 1) n [] 0 (Nat.lt_succ_self n)]
  exact pushDigits_zero n

theorem pad2_foldl (i : Nat) :
    (pad2 i).data.foldl (fun a c => a * 10 + (c.toNat - 48)) 0 = i := by
  rw [pad2]
  split
  · rw [String.data_append, List.foldl_append]
    exact repr_foldl i
  · exact repr_foldl i

theorem pad2_inj {i j : Nat} (h : pad2 i = pad2 j) : i = j := by
  have h2 := congrArg (fun s => s.data.foldl (fun a c => a * 10 + (c.toNat - 48)) 0) h
  simpa [pad2_foldl] using h2

theorem toDigitsCore_digits (fuel : Nat) :
    ∀ (n : Nat) (ds : List Char) (c : Char), c ∈ Nat.toDigitsCore 10 fuel n ds →
      c ∈ ds ∨ c.isDigit = true := by
  induction fuel with
  | zero => intro n ds c hc; exact Or.inl hc
  | succ fuel ih =>
    intro n ds c hc
    rw [Nat.toDigitsCore] at hc
    have hdig : (Nat.digitChar (n % 10)).isDigit = true := by
      have hm : n % 10 < 10 := Nat.mod_lt _ (by omega)
      interval_cases h : n % 10 <;> rfl
    by_cases h : n / 10 = 0
    · rw [if_pos h] at hc
      rcases List.mem_cons.mp hc with h1 | h1
      · exact Or.inr (h1 ▸ hdig)
      · exact Or.inl h1
    · rw [if_neg h] at hc
      rcases ih (n / 10) _ c hc with h1 | h1
      · rcases List.mem_cons.mp h1 with h2 | h2
        · exact Or.inr (h2 ▸ hdig)
        · exact Or.inl h2
      · exact Or.inr h1

theorem repr_digits (n : Nat) : ∀ c ∈ (Nat.repr n).data, c.isDigit = true := by
  intro c hc
  have hc2 : c ∈ Nat.toDigitsCore 10 (n + 1) n [] := hc
  rcases toDigitsCore_digits (n + 1) n [] c hc2 with h | h
  · simp at h
  · exact h

theorem pad2_digits (i : Nat) : ∀ c ∈ (pad2 i).data, c.isDigit = true := by
  intro c hc
  rw [pad2] at hc
  by_cases hc2 : (Nat.repr i).length < 2
  · rw [if_pos hc2, String.data_append] at hc
    rcases List.mem_append.mp hc with h | h
    · simp only [show "0".data = [Char.ofNat 48] from rfl, List.mem_singleton] at h
      subst h; rfl
    · exact repr_digits i c h
  · rw [if_neg hc2] at hc
    exact repr_digits i c hc

theorem append_dash_inj (s : List Char) :
    ∀ (t u v : List Char), (∀ c ∈ s, c.isDigit = true) → (∀ c ∈ t, c.isDigit = true) →
      s ++ Char.ofNat 45 :: u = t ++ Char.ofNat 45 :: v → s = t ∧ u = v := by
  induction s with
  | nil =>
    intro t u v _ ht h
    cases t with
    | nil => simpa using h
    | cons b bs =>
      exfalso
      have hb : b = Char.ofNat 45 := by
        have := congrArg (fun l => l.head?) h
        simpa using this.symm
      have := ht b (by simp)
      rw [hb] at this
      simp [Char.isDigit] at this
  | cons a as ih =>
    intro t u v hs ht h
    cases t with
    | nil =>
      exfalso
      have ha : a = Char.ofNat 45 := by
        have := congrArg (fun l => l.head?) h
        simpa using this
      have := hs a (by simp)
      rw [ha] at this
      simp [Char.isDigit] at this
    | cons b bs =>
      simp only [List.cons_append, List.cons.injEq] at h
      obtain ⟨hab, htail⟩ := h
      obtain ⟨h1, h2⟩ := ih bs u v (fun c hc => hs c (by simp [hc]))
        (fun c hc => ht c (by simp [hc])) htail
      exact ⟨by rw [hab, h1], h2⟩

theorem string_data_inj {s t : String} (h : s.data = t.data) : s = t := by
  cases s; cases t; exact congrArg String.mk h

theorem suffixOf_inj {i j : Nat} (a b : BuildAndTestSpec) (hij : i ≠ j) :
    suffixOf i a ≠ suffixOf j b := by
  intro h
  apply hij
  have hd := congrArg String.data h
  simp only [suffixOf, String.data_append, List.append_assoc,
    show "-".data = [Char.ofNat 45] from rfl, List.singleton_append] at hd
  obtain ⟨hp, -⟩ := append_dash_inj (pad2 i).data (pad2 j).data _ _
    (pad2_digits i) (pad2_digits j) hd
  exact pad2_inj (string_data_inj hp)

theorem string_append_left_cancel {a s t : String} (h : a ++ s = a ++ t) : s = t := by
  apply string_data_inj
  have h2 := congrArg String.data h
  simp only [String.data_append] at h2
  exact List.append_cancel_left h2

/-- C5: the result-file suffix is a deterministic function of the spec's
position and revision id — the zero-padded two-digit index, a hyphen, and
the twelve-character short id — and for two distinct positions in the same
run the `gdb.sum` and `gdb.log` destination filenames never collide. -/
theorem result_files_no_collision (res : String) (i j : Nat)
    (a b : BuildAndTestSpec) (hij : i ≠ j) :
    suffixOf i a = pad2 i ++ "-" ++ String.mk (a.sha1.data.take 12) ∧
    res ++ "/gdb.sum." ++ suffixOf i a ≠ res ++ "/gdb.sum." ++ suffixOf j b ∧
    res ++ "/gdb.log." ++ suffixOf i a ≠ res ++ "/gdb.log." ++ suffixOf j b :=
  ⟨rfl,
   fun h => suffixOf_inj a b hij (string_append_left_cancel h),
   fun h => suffixOf_inj a b hij (string_append_left_cancel h)⟩

/-- Closed witness for the C5 theorem at concrete positions and specs. -/
theorem result_files_no_collision_witness :
    (0 : Nat) ≠ 1 ∧
    ("<temp_dir>" ++ "/gdb.sum." ++
        suffixOf 0 ⟨"/s", "/b", "<temp_dir>", "aaaa", 1, "", ""⟩ ≠
      "<temp_dir>" ++ "/gdb.sum." ++
        suffixOf 1 ⟨"/s", "/b", "<temp_dir>", "bbbb", 1, "", ""⟩) :=
  ⟨by decide,
   (result_files_no_collision "<temp_dir>" 0 1 ⟨"/s", "/b", "<temp_dir>", "aaaa", 1, "", ""⟩
      ⟨"/s", "/b", "<temp_dir>", "bbbb", 1, "", ""⟩ (by decide)).2.1⟩

/-- C8: the flag string of each spec — in the default two-spec mode the
per-side option joined to the global option by a single space (per-side
first), and in all-commits mode the global option alone for every spec,
the per-side options being ignored. -/
theorem runtestflags_per_spec (env : Env) (args : Args) (rp b a : String) :
    (specsToTest env args rp b a).map (fun s => s.runtest_flags) =
      (if args.all_commits then (get_rev_list env b a).map (fun _ => args.runtestflags)
       else [args.runtestflags_before ++ " " ++ args.runtestflags,
             args.runtestflags_after ++ " " ++ args.runtestflags]) := by
  rw [specsToTest]
  split
  · rw [List.map_map]
    exact List.map_congr_left fun x _ => rfl
  · rfl

theorem shlexQuote_length_pos (s : String) (h : s ≠ "") : 0 < (shlexQuote s).length := by
  rw [shlexQuote, if_neg h]
  split
  · have hd : s.data ≠ [] := fun hd => h (by cases s; cases hd; rfl)
    show 0 < s.data.length
    exact List.length_pos.mpr hd
  · show 0 < ((sq ++ String.mk (replaceSqChars s.data)) ++ sq).length
    rw [String.length_append, String.length_append]
    have hsq : sq.length = 1 := rfl
    omega

theorem runtestflags_field_eq_plain_iff (flags : String) :
    runtestflags_field flags = "RUNTESTFLAGS=" ↔ flags = "" := by
  constructor
  · intro h
    by_contra hne
    have hlen : 0 < flags.length := by
      have hd : flags.data ≠ [] := fun hd => hne (by cases flags; cases hd; rfl)
      exact List.length_pos.mpr hd
    rw [runtestflags_field, if_pos hlen] at h
    have h2 := congrArg String.length h
    rw [String.length_append] at h2
    have h3 := shlexQuote_length_pos flags hne
    omega
  · intro h
    subst h
    rfl

/-- C9: with no runtest-flag options supplied, each two-spec-mode flag
string is the single space produced by joining two empty strings, which is
non-empty and therefore quoted, so `make check` receives
`RUNTESTFLAGS=' '`; the unquoted `RUNTESTFLAGS=` form arises exactly for an
empty flag string, which happens only in all-commits mode with an empty
global flag. -/
theorem runtestflags_quoting (env : Env) (args : Args) (rp b a : String)
    (hf : args.runtestflags = "") (hfb : args.runtestflags_before = "")
    (hfa : args.runtestflags_after = "") :
    (args.all_commits = false →
      ∀ s ∈ specsToTest env args rp b a,
        s.runtest_flags = " " ∧
        runtestflags_field s.runtest_flags = "RUNTESTFLAGS=" ++ (sq ++ " " ++ sq)) ∧
    (∀ flags : String, runtestflags_field flags = "RUNTESTFLAGS=" ↔ flags = "") ∧
    (args.all_commits = true →
      ∀ s ∈ specsToTest env args rp b a,
        runtestflags_field s.runtest_flags = "RUNTESTFLAGS=") := by
  refine ⟨?_, runtestflags_field_eq_plain_iff, ?_⟩
  · intro hac s hs
    rw [specsToTest, if_neg (by rw [hac]; simp)] at hs
    simp only [List.mem_cons, List.not_mem_nil, or_false] at hs
    have hsp : s.runtest_flags = " " := by
      rcases hs with rfl | rfl
      · show args.runtestflags_before ++ " " ++ args.runtestflags = " "
        rw [hfb, hf]
        decide
      · show args.runtestflags_after ++ " " ++ args.runtestflags = " "
        rw [hfa, hf]
        decide
    refine ⟨hsp, ?_⟩
    rw [hsp]
    decide
  · intro hac s hs
    rw [specsToTest, if_pos hac] at hs
    obtain ⟨sha1, -, rfl⟩ := List.mem_map.mp hs
    show runtestflags_field args.runtestflags = _
    rw [hf]
    decide

/-- Closed witness for the C9 theorem. -/
theorem runtestflags_quoting_witness :
    runtestflags_field " " = "RUNTESTFLAGS=" ++ (sq ++ " " ++ sq) ∧
    (runtestflags_field "" = "RUNTESTFLAGS=" ↔ ("" : String) = "") := by
  have h := runtestflags_quoting envW argsW "<temp_dir>" "aa" "bb" rfl rfl rfl
  have hmem : (⟨"/src", "/build", "<temp_dir>", "aa", 4, "" ++ " " ++ "", ""⟩ :
      BuildAndTestSpec) ∈ specsToTest envW argsW "<temp_dir>" "aa" "bb" := by
    rw [specsToTest]
    decide
  obtain ⟨he, hfield⟩ := h.1 rfl _ hmem
  rw [he] at hfield
  exact ⟨hfield, h.2.1 ""⟩

theorem mem_andThen_left {a b : Prog} {e : Event} (h : e ∈ a.1) : e ∈ (andThen a b).1 := by
  rcases a with ⟨t, o⟩
  cases o
  · exact List.mem_append_left _ h
  · exact h
  · exact h

theorem mem_andThen_right {a b : Prog} {e : Event} (ha : a.2 = .ok) (h : e ∈ b.1) :
    e ∈ (andThen a b).1 := by
  rcases a with ⟨t, o⟩
  cases o
  · exact List.mem_append_right _ h
  · exact absurd ha (by simp)
  · exact absurd ha (by simp)

theorem mem_executedLines {t : List Event} {l : String} {c : Bool}
    (h : Event.exec l c true ∈ t) : l ∈ executedLines t := by
  rw [executedLines, List.mem_filterMap]
  exact ⟨Event.exec l c true, h, rfl⟩

/-- C3: in a non-dry run a failing build (`make`) aborts the whole run with
no copy step ever executed, while after a successful build the pipeline
reaches the result-copy step whatever the exit status of `make check`
(whose runner call does not check the exit status). -/
theorem build_fatal_test_not (env : Env) (spec : BuildAndTestSpec) (suffix : String)
    (hco : env.exitCode (checkout_line spec.src_path spec.sha1) = 0) :
    (env.exitCode (make_line spec.build_path spec.j) ≠ 0 →
      (test_spec env spec suffix false).2 = .abort (make_line spec.build_path spec.j) ∧
      executedLines (test_spec env spec suffix false).1 =
        [checkout_line spec.src_path spec.sha1, make_line spec.build_path spec.j]) ∧
    (env.exitCode (make_line spec.build_path spec.j) = 0 →
      cp_line (sum_src spec.build_path) (spec.results_path ++ "/gdb.sum." ++ suffix) ∈
        executedLines (test_spec env spec suffix false).1) := by
  constructor
  · intro hmk
    have hco2 := hco
    have hmk2 := hmk
    simp only [checkout_line] at hco2
    simp only [make_line] at hmk2
    have habort : test_spec env spec suffix false =
        ([ .print (">>> Checking out " ++ spec.short_sha1),
           .exec (checkout_line spec.src_path spec.sha1) true true,
           .print ">>> Making",
           .exec (make_line spec.build_path spec.j) true true],
         .abort (make_line spec.build_path spec.j)) := by
      simp [test_spec, andThen, pr, checkout, make, execute, hco2, hmk2,
        checkout_line, make_line]
    rw [habort]
    exact ⟨rfl, rfl⟩
  · intro hmk
    have hcoP : (checkout env spec.src_path spec.sha1 false).2 = .ok := by
      rw [checkout, execute_real_snd]
      exact fun _ => hco
    have hmkP : (make env spec.build_path spec.j false).2 = .ok := by
      rw [make, execute_real_snd]
      exact fun _ => hmk
    have hmcP :
        (make_check env spec.build_path spec.runtest_flags spec.tests false).2 = .ok := by
      rw [make_check, execute_real_snd]
      intro h
      exact absurd h (by simp)
    have hmem : Event.exec
        (cp_line (sum_src spec.build_path) (spec.results_path ++ "/gdb.sum." ++ suffix))
        true true ∈
        (copy env (sum_src spec.build_path)
          (spec.results_path ++ "/gdb.sum." ++ suffix) false).1 := by
      rw [copy, execute_fst]
      exact List.mem_singleton.mpr rfl
    apply mem_executedLines
    show _ ∈ (andThen (pr _) _).1
    apply mem_andThen_right rfl
    apply mem_andThen_right hcoP
    apply mem_andThen_right rfl
    apply mem_andThen_right hmkP
    apply mem_andThen_right rfl
    apply mem_andThen_right hmcP
    apply mem_andThen_right rfl
    exact mem_andThen_left hmem

/-- Closed witness for the C3 theorem: a failing build aborts, a failing
test harness still reaches the copy step. -/
theorem build_fatal_test_not_witness :
    (test_spec envFailMake specW3 "00-abc123" false).2 = .abort (make_line "/b" 1) ∧
    cp_line (sum_src "/b") ("<temp_dir>" ++ "/gdb.sum." ++ "00-abc123") ∈
      executedLines (test_spec envFailCheck specW3 "00-abc123" false).1 :=
  ⟨((build_fatal_test_not envFailMake specW3 "00-abc123" (by decide)).1 (by decide)).1,
   (build_fatal_test_not envFailCheck specW3 "00-abc123" (by decide)).2 (by decide)⟩

/-- C6: when canonical-id resolution fails for the before reference or the
after reference, the run ends with exit code 1, and `git rev-parse` was
attempted at most once per endpoint (no retry). -/
theorem resolution_failure_exit1 (env : Env) (args : Args)
    (h : env.revParse args.before_ref = none ∨ env.revParse args.after_ref = none) :
    (main env args).2 = .exit1 ∧
    (revParseRefs (main env args).1 = [args.before_ref] ∨
     revParseRefs (main env args).1 = [args.before_ref, args.after_ref]) := by
  rcases hb : env.revParse args.before_ref with _ | b
  · refine ⟨by simp [main, hb], Or.inl ?_⟩
    simp only [main, hb]
    cases hd : args.dry_run <;> simp [revParseRefs, rev_parse_cmd]
  · rcases ha : env.revParse args.after_ref with _ | a
    · refine ⟨by simp [main, hb, ha], Or.inr ?_⟩
      simp only [main, hb, ha]
      cases hd : args.dry_run <;> simp [revParseRefs, rev_parse_cmd]
    · exfalso
      rcases h with h | h
      · rw [hb] at h; exact Option.noConfusion h
      · rw [ha] at h; exact Option.noConfusion h

/-- Closed witness for the C6 theorem. -/
theorem resolution_failure_exit1_witness :
    (main envNoResolve argsW).2 = .exit1 :=
  (resolution_failure_exit1 envNoResolve argsW (Or.inl rfl)).1

theorem flatten_map_nil {α β : Type} (l : List β) :
    (l.map fun _ => ([] : List α)).flatten = [] := by
  induction l with
  | nil => rfl
  | cons x t ih => simp [ih]

theorem execLines_loop_events (i : Nat) (specs : List BuildAndTestSpec) (d : Bool) :
    execLines (loop_events i specs d) =
      ((List.enumFrom i specs).map fun p => cycle_lines p.2 (suffixOf p.1 p.2)).flatten := by
  rw [loop_events, execLines_flatten, List.map_map]
  congr 1

theorem execLines_header_events (env : Env) (args : Args) (b a : String)
    (specs : List BuildAndTestSpec) :
    execLines (header_events env args b a specs) = [] := by
  rw [header_events]
  split <;> rfl

theorem execLines_report (rp : String) (specs : List BuildAndTestSpec) :
    execLines (report rp specs).1 = [] := by
  rw [report]
  dsimp only
  rw [execLines_append, execLines_append, execLines_append]
  have h1 : execLines
      [ .print "You can run one of these commands to view differences in test results.",
        .print ""] = [] := rfl
  have h2 : execLines [ .print "Results between before and after:", .print ""] = [] := rfl
  have h3 : execLines (compare_results (reporter_sum_file rp 0 specs.head!)
      (reporter_sum_file rp (specs.length - 1) specs.getLast!)).1 = [] := rfl
  rw [h1, h2, h3]
  simp only [List.append_nil, List.nil_append]
  split
  · rw [execLines_append]
    have h4 : execLines [ .print "Incremental results:", .print ""] = [] := rfl
    rw [h4, execLines_flatten, List.map_map, List.nil_append]
    have h5 : ((specs.dropLast.zip specs.tail).enum.map
        (execLines ∘ fun p =>
          (compare_results (reporter_sum_file rp p.1 p.2.1)
            (reporter_sum_file rp (p.1 + 1) p.2.2)).1 ++ [Event.print ""])) =
        (specs.dropLast.zip specs.tail).enum.map fun _ => [] :=
      List.map_congr_left fun p _ => rfl
    rw [h5, flatten_map_nil]
  · rfl

theorem execLines_main_of_ok (env : Env) (args : Args) (b a : String)
    (hb : env.revParse args.before_ref = some b)
    (ha : env.revParse args.after_ref = some a)
    (hok : (main env args).2 = .ok) :
    execLines (main env args).1 =
      ((List.enumFrom 0 (specsToTest env args (results_path_of env args) b a)).map
        fun p => cycle_lines p.2 (suffixOf p.1 p.2)).flatten := by
  rw [main_fst_of_ok env args b a hb ha hok, main_ok_events]
  repeat rw [execLines_append]
  rw [execLines_header_events, execLines_report, execLines_loop_events]
  have h1 : execLines (if args.dry_run then [] else [ .mkdtemp]) = [] := by
    split <;> rfl
  have h2 : execLines
      [ .gitOut (rev_parse_cmd args.source args.before_ref),
        .gitOut (rev_parse_cmd args.source args.after_ref),
        .gitOut (rev_list_cmd args.source b a)] = [] := rfl
  have h3 : execLines (if args.dry_run then [] else [ .sleep]) = [] := by
    split <;> rfl
  rw [h1, h2, h3]
  simp

/-- C7: in any run in which every fatal step succeeded, the command lines
handed to the runner are exactly, in order: for each spec in list order,
its checkout, its build, its test run, the copy of the test summary, then
the copy of the test log. -/
theorem pipeline_order (env : Env) (args : Args) (b a : String)
    (hb : env.revParse args.before_ref = some b)
    (ha : env.revParse args.after_ref = some a)
    (hok : (main env args).2 = .ok) :
    execLines (main env args).1 =
      ((List.enumFrom 0 (specsToTest env args (results_path_of env args) b a)).map
        fun p => cycle_lines p.2 (suffixOf p.1 p.2)).flatten :=
  execLines_main_of_ok env args b a hb ha hok

theorem executedLines_nil_of_execLines {t : List Event} (h : execLines t = []) :
    executedLines t = [] := by
  induction t with
  | nil => rfl
  | cons e t ih =>
    cases e with
    | exec l c x => simp [execLines] at h
    | print s => exact ih h
    | gitOut g => exact ih h
    | mkdtemp => exact ih h
    | sleep => exact ih h

theorem executedLines_loop_events_dry (i : Nat) (specs : List BuildAndTestSpec) :
    executedLines (loop_events i specs true) = [] := by
  rw [loop_events, executedLines_flatten, List.map_map]
  have h : ((List.enumFrom i specs).map
      (executedLines ∘ fun p => test_spec_events p.2 (suffixOf p.1 p.2) true)) =
      (List.enumFrom i specs).map fun _ => [] :=
    List.map_congr_left fun p _ => rfl
  rw [h, flatten_map_nil]

theorem executedLines_main_dry (env : Env) (args : Args) (hd : args.dry_run = true) :
    executedLines (main env args).1 = [] := by
  rcases hb : env.revParse args.before_ref with _ | b
  · simp [main, hb, hd, executedLines]
  · rcases ha : env.revParse args.after_ref with _ | a
    · simp [main, hb, ha, hd, executedLines]
    · rw [main_fst_of_ok env args b a hb ha (main_dry_snd env args b a hd hb ha),
        main_ok_events, hd]
      repeat rw [executedLines_append]
      rw [executedLines_loop_events_dry,
        executedLines_nil_of_execLines (execLines_header_events env args b a _),
        executedLines_nil_of_execLines (execLines_report _ _)]
      simp [executedLines]

/-- C1: a dry run executes no runner command at all — every checkout,
build, test and copy command line is only printed — and the command lines
it prints are exactly the lines a real run (whose results directory is the
placeholder name) executes, in the same order, whenever that real run
completes. -/
theorem dry_run_prints_without_executing (env : Env) (args : Args) :
    executedLines (main (setTempDir env "<temp_dir>") (setDry args true)).1 = [] ∧
    ((main (setTempDir env "<temp_dir>") (setDry args false)).2 = .ok →
      execLines (main (setTempDir env "<temp_dir>") (setDry args true)).1 =
        execLines (main (setTempDir env "<temp_dir>") (setDry args false)).1) := by
  constructor
  · exact executedLines_main_dry _ _ rfl
  · intro hok
    rcases hb : env.revParse args.before_ref with _ | b
    · exfalso
      have : (main (setTempDir env "<temp_dir>") (setDry args false)).2 = .exit1 := by
        simp [main, setTempDir, setDry, hb]
      rw [hok] at this
      exact Outcome.noConfusion this
    · rcases ha : env.revParse args.after_ref with _ | a
      · exfalso
        have : (main (setTempDir env "<temp_dir>") (setDry args false)).2 = .exit1 := by
          simp [main, setTempDir, setDry, hb, ha]
        rw [hok] at this
        exact Outcome.noConfusion this
      · have hb' : (setTempDir env "<temp_dir>").revParse (setDry args true).before_ref =
            some b := hb
        have ha' : (setTempDir env "<temp_dir>").revParse (setDry args true).after_ref =
            some a := ha
        have hb'' : (setTempDir env "<temp_dir>").revParse (setDry args false).before_ref =
            some b := hb
        have ha'' : (setTempDir env "<temp_dir>").revParse (setDry args false).after_ref =
            some a := ha
        rw [execLines_main_of_ok _ _ b a hb' ha'
            (main_dry_snd _ _ b a rfl hb' ha'),
          execLines_main_of_ok _ _ b a hb'' ha'' hok]
        rfl

/-- Closed witness for the C1 theorem. -/
theorem dry_run_prints_without_executing_witness :
    (main (setTempDir envW "<temp_dir>") (setDry argsW false)).2 = .ok ∧
    execLines (main (setTempDir envW "<temp_dir>") (setDry argsW true)).1 =
      execLines (main (setTempDir envW "<temp_dir>") (setDry argsW false)).1 :=
  ⟨by decide, (dry_run_prints_without_executing envW argsW).2 (by decide)⟩

theorem mkdtemp_not_mem_test_spec_events (spec : BuildAndTestSpec) (suffix : String)
    (d : Bool) : Event.mkdtemp ∉ test_spec_events spec suffix d := by
  simp [test_spec_events]

theorem mkdtemp_not_mem_loop_events (i : Nat) (specs : List BuildAndTestSpec) (d : Bool) :
    Event.mkdtemp ∉ loop_events i specs d := by
  rw [loop_events]
  intro h
  rw [List.mem_flatten] at h
  obtain ⟨l, hl, hm⟩ := h
  obtain ⟨p, -, rfl⟩ := List.mem_map.mp hl
  exact mkdtemp_not_mem_test_spec_events p.2 _ d hm

theorem mkdtemp_not_mem_header_events (env : Env) (args : Args) (b a : String)
    (specs : List BuildAndTestSpec) :
    Event.mkdtemp ∉ header_events env args b a specs := by
  rw [header_events]
  split <;> simp

theorem mkdtemp_not_mem_report (rp : String) (specs : List BuildAndTestSpec) :
    Event.mkdtemp ∉ (report rp specs).1 := by
  rw [report]
  dsimp only
  intro h
  simp only [List.mem_append] at h
  rcases h with ((h | h) | h) | h
  · simp at h
  · revert h
    split
    · intro h
      simp only [List.mem_append] at h
      rcases h with h | h
      · simp at h
      · rw [List.mem_flatten] at h
        obtain ⟨l, hl, hm⟩ := h
        obtain ⟨p, -, rfl⟩ := List.mem_map.mp hl
        simp [compare_results] at hm
    · intro h
      simp at h
  · simp at h
  · simp [compare_results] at h

theorem filter_flatten (p : String → Bool) (L : List (List String)) :
    (L.flatten).filter p = (L.map fun l => l.filter p).flatten := by
  induction L with
  | nil => rfl
  | cons h t ih => simp [List.filter_append, ih]

theorem specsToTest_results_path (env : Env) (args : Args) (rp b a : String) :
    ∀ s ∈ specsToTest env args rp b a, s.results_path = rp := by
  intro s hs
  rw [specsToTest] at hs
  revert hs
  split
  · intro hs
    obtain ⟨x, -, rfl⟩ := List.mem_map.mp hs
    rfl
  · intro hs
    simp only [List.mem_cons, List.not_mem_nil, or_false] at hs
    rcases hs with rfl | rfl <;> rfl

theorem results_path_of_dry (env : Env) (args : Args) (hd : args.dry_run = true) :
    results_path_of env args = "<temp_dir>" := by
  rw [results_path_of, hd]
  rfl

/-- C10: even in a dry run the program still executes the git queries —
`rev-parse` for both endpoints, `log` for the displayed summaries, and
`rev-list` for the revision range — while executing nothing through the
runner, creating no results directory, and substituting the literal
placeholder `<temp_dir>` for the results path in every printed copy
command. -/
theorem dry_run_still_queries_git (env : Env) (args : Args) (b a : String)
    (hd : args.dry_run = true)
    (hb : env.revParse args.before_ref = some b)
    (ha : env.revParse args.after_ref = some a) :
    Event.mkdtemp ∉ (main env args).1 ∧
    executedLines (main env args).1 = [] ∧
    Event.gitOut (rev_parse_cmd args.source args.before_ref) ∈ (main env args).1 ∧
    Event.gitOut (rev_parse_cmd args.source args.after_ref) ∈ (main env args).1 ∧
    Event.gitOut (rev_list_cmd args.source b a) ∈ (main env args).1 ∧
    (args.all_commits = false →
      Event.gitOut (log_cmd args.source b) ∈ (main env args).1 ∧
      Event.gitOut (log_cmd args.source a) ∈ (main env args).1) ∧
    (args.all_commits = true →
      Event.gitOut (log_cmd args.source
        (specsToTest env args "<temp_dir>" b a).head!.sha1) ∈ (main env args).1 ∧
      Event.gitOut (log_cmd args.source
        (specsToTest env args "<temp_dir>" b a).getLast!.sha1) ∈ (main env args).1) ∧
    (execLines (main env args).1).filter (fun l => strStartsWith "cp" l) =
      ((List.enumFrom 0 (specsToTest env args "<temp_dir>" b a)).map fun p =>
        [cp_line (sum_src p.2.build_path)
           ("<temp_dir>" ++ "/gdb.sum." ++ suffixOf p.1 p.2),
         cp_line (log_src p.2.build_path)
           ("<temp_dir>" ++ "/gdb.log." ++ suffixOf p.1 p.2)]).flatten := by
  have hok := main_dry_snd env args b a hd hb ha
  have htr := main_fst_of_ok env args b a hb ha hok
  have hrp := results_path_of_dry env args hd
  refine ⟨?_, executedLines_main_dry env args hd, ?_, ?_, ?_, ?_, ?_, ?_⟩
  · rw [htr, main_ok_events, hd]
    simp [List.mem_append, mkdtemp_not_mem_loop_events, mkdtemp_not_mem_report,
      mkdtemp_not_mem_header_events]
  · rw [htr, main_ok_events]
    simp [List.mem_append]
  · rw [htr, main_ok_events]
    simp [List.mem_append]
  · rw [htr, main_ok_events]
    simp [List.mem_append]
  · intro hac
    rw [htr, main_ok_events]
    constructor <;> simp [header_events, hac, List.mem_append]
  · intro hac
    rw [htr, main_ok_events]
    constructor <;> simp [header_events, hac, hrp, List.mem_append]
  · have hexec := execLines_main_of_ok env args b a hb ha hok
    rw [hrp] at hexec
    rw [hexec, filter_flatten, List.map_map]
    congr 1
    apply List.map_congr_left
    intro p hp
    have hmem := List.snd_mem_of_mem_enumFrom hp
    have hr := specsToTest_results_path env args "<temp_dir>" b a p.2 hmem
    simp only [Function.comp_apply]
    rw [filter_cp_cycle, hr]

/-- Closed witness for the C10 theorem. -/
theorem dry_run_still_queries_git_witness :
    Event.mkdtemp ∉ (main envW argsW).1 ∧
    Event.gitOut (rev_parse_cmd "/src" "v1") ∈ (main envW argsW).1 :=
  ⟨(dry_run_still_queries_git envW argsW "aaaabbbbccccddddeeeeffff0000111122223333"
      "0000111122223333aaaabbbbccccddddeeeeffff" rfl (by decide) (by decide)).1,
   (dry_run_still_queries_git envW argsW "aaaabbbbccccddddeeeeffff0000111122223333"
      "0000111122223333aaaabbbbccccddddeeeeffff" rfl (by decide) (by decide)).2.2.1⟩

theorem meldLines_test_spec_events (spec : BuildAndTestSpec) (suffix : String) (d : Bool) :
    meldLines (test_spec_events spec suffix d) = [] := by
  have h1 : strStartsWith "  meld " (">>> Checking out " ++ spec.short_sha1) = false :=
    strStartsWith_lit_false _ _ _ (by decide) (by decide)
  simp [meldLines, test_spec_events, h1]
  decide

theorem meldLines_loop_events (i : Nat) (specs : List BuildAndTestSpec) (d : Bool) :
    meldLines (loop_events i specs d) = [] := by
  rw [loop_events, meldLines_flatten, List.map_map]
  have h : ((List.enumFrom i specs).map
      (meldLines ∘ fun p => test_spec_events p.2 (suffixOf p.1 p.2) d)) =
      (List.enumFrom i specs).map fun _ => [] :=
    List.map_congr_left fun p _ => meldLines_test_spec_events p.2 _ d
  rw [h, flatten_map_nil]

theorem take_ne_nil_of_ne_nil {l : List Char} (h : l ≠ []) : l.take 12 ≠ [] := by
  cases l with
  | nil => exact absurd rfl h
  | cons c t => simp

theorem meld_not_prefix_hex (short rest : String) (hne : short.data ≠ [])
    (hhex : ∀ c ∈ short.data,
      (c.isDigit || (Char.ofNat 97 ≤ c && c ≤ Char.ofNat 102)) = true) :
    strStartsWith "  meld " ("  " ++ short ++ rest) = false := by
  rcases hc : short.data with _ | ⟨c, t⟩
  · exact absurd hc hne
  · have hcx := hhex c (by rw [hc]; simp)
    rw [strStartsWith]
    have hdata : (("  " ++ short) ++ rest).data =
        Char.ofNat 32 :: Char.ofNat 32 :: c :: (t ++ rest.data) := by
      rw [String.data_append, String.data_append, hc]
      rfl
    rw [hdata]
    have hm : "  meld ".data =
        Char.ofNat 32 :: Char.ofNat 32 :: Char.ofNat 109 :: "eld ".data := rfl
    rw [hm]
    simp only [listIsPre]
    have hmc : (Char.ofNat 109 == c) = false := by
      rw [beq_eq_false_iff_ne]
      intro he
      rw [← he] at hcx
      exact absurd hcx (by decide)
    simp [hmc]

theorem short_sha1_hex {s : BuildAndTestSpec} (h : isShaStr s.sha1 = true) :
    s.short_sha1.data ≠ [] ∧
    ∀ c ∈ s.short_sha1.data,
      (c.isDigit || (Char.ofNat 97 ≤ c && c ≤ Char.ofNat 102)) = true := by
  rw [isShaStr, Bool.and_eq_true] at h
  obtain ⟨hne, hall⟩ := h
  have hne2 : s.sha1.data ≠ [] := by
    intro h2
    rw [h2] at hne
    simp at hne
  constructor
  · show s.sha1.data.take 12 ≠ []
    exact take_ne_nil_of_ne_nil hne2
  · intro c hc
    have hc2 : c ∈ s.sha1.data := List.mem_of_mem_take hc
    exact List.all_eq_true.mp hall c hc2

theorem meldLines_header_events (env : Env) (args : Args) (b a : String)
    (specs : List BuildAndTestSpec)
    (hhex : args.all_commits = true →
      isShaStr specs.head!.sha1 = true ∧ isShaStr specs.getLast!.sha1 = true) :
    meldLines (header_events env args b a specs) = [] := by
  rw [header_events]
  split
  · rename_i hac
    obtain ⟨hh, hl⟩ := hhex hac
    obtain ⟨hne1, hx1⟩ := short_sha1_hex hh
    obtain ⟨hne2, hx2⟩ := short_sha1_hex hl
    have e1 : "  " ++ specs.head!.short_sha1 ++ "  " ++ env.commitSummary specs.head!.sha1 =
        "  " ++ specs.head!.short_sha1 ++ ("  " ++ env.commitSummary specs.head!.sha1) := by
      rw [String.append_assoc]
    have e2 : "  " ++ specs.getLast!.short_sha1 ++ "  " ++
          env.commitSummary specs.getLast!.sha1 =
        "  " ++ specs.getLast!.short_sha1 ++
          ("  " ++ env.commitSummary specs.getLast!.sha1) := by
      rw [String.append_assoc]
    have f1 := meld_not_prefix_hex specs.head!.short_sha1
      ("  " ++ env.commitSummary specs.head!.sha1) hne1 hx1
    have f2 := meld_not_prefix_hex specs.getLast!.short_sha1
      ("  " ++ env.commitSummary specs.getLast!.sha1) hne2 hx2
    simp [meldLines, e1, e2, f1, f2]
    decide
  · have f1 : strStartsWith "  meld "
        ("Before: " ++ String.mk (b.data.take 12) ++ "  " ++ env.commitSummary b) = false := by
      have e : "Before: " ++ String.mk (b.data.take 12) ++ "  " ++ env.commitSummary b =
          "Before: " ++ (String.mk (b.data.take 12) ++ ("  " ++ env.commitSummary b)) := by
        rw [String.append_assoc, String.append_assoc]
      rw [e]
      exact strStartsWith_lit_false _ _ _ (by decide) (by decide)
    have f2 : strStartsWith "  meld "
        ("After:  " ++ String.mk (a.data.take 12) ++ "  " ++ env.commitSummary a) = false := by
      have e : "After:  " ++ String.mk (a.data.take 12) ++ "  " ++ env.commitSummary a =
          "After:  " ++ (String.mk (a.data.take 12) ++ ("  " ++ env.commitSummary a)) := by
        rw [String.append_assoc, String.append_assoc]
      rw [e]
      exact strStartsWith_lit_false _ _ _ (by decide) (by decide)
    simp [meldLines, f1, f2]

theorem meldLines_compare (x y : String) :
    meldLines (compare_results x y).1 = ["  meld " ++ x ++ " " ++ y] := by
  have hpos : strStartsWith "  meld " ("  meld " ++ x ++ " " ++ y) = true := by
    have e : "  meld " ++ x ++ " " ++ y = "  meld " ++ (x ++ (" " ++ y)) := by
      rw [String.append_assoc, String.append_assoc]
    rw [e]
    exact strStartsWith_append_self _ _
  have hk : strStartsWith "  meld " ("  kdiff3 " ++ x ++ " " ++ y) = false := by
    have e : "  kdiff3 " ++ x ++ " " ++ y = "  kdiff3 " ++ (x ++ (" " ++ y)) := by
      rw [String.append_assoc, String.append_assoc]
    rw [e]
    exact strStartsWith_lit_false _ _ _ (by decide) (by decide)
  have hf : strStartsWith "  meld " ("  diff -u " ++ x ++ " " ++ y) = false := by
    have e : "  diff -u " ++ x ++ " " ++ y = "  diff -u " ++ (x ++ (" " ++ y)) := by
      rw [String.append_assoc, String.append_assoc]
    rw [e]
    exact strStartsWith_lit_false _ _ _ (by decide) (by decide)
  simp [meldLines, compare_results, hpos, hk, hf]

theorem meldLines_compare_block (x y : String) :
    meldLines ((compare_results x y).1 ++ [Event.print ""]) =
      ["  meld " ++ x ++ " " ++ y] := by
  rw [meldLines_append, meldLines_compare]
  rfl

theorem flatten_map_singleton {α β : Type} (l : List α) (f : α → β) :
    (l.map fun x => [f x]).flatten = l.map f := by
  induction l with
  | nil => rfl
  | cons x t ih => simp [ih]

theorem meldLines_report (rp : String) (specs : List BuildAndTestSpec) :
    meldLines (report rp specs).1 =
      (report_pairs rp specs).map (fun p => "  meld " ++ p.1 ++ " " ++ p.2) := by
  rw [report, report_pairs]
  dsimp only
  rw [meldLines_append, meldLines_append, meldLines_append]
  have h1 : meldLines
      [ .print "You can run one of these commands to view differences in test results.",
        .print ""] = [] := by decide
  have h2 : meldLines [ .print "Results between before and after:", .print ""] = [] := by
    decide
  rw [h1, h2, meldLines_compare]
  by_cases hlen : specs.length > 2
  · rw [if_pos hlen, if_pos hlen, meldLines_append]
    have h4 : meldLines [ .print "Incremental results:", .print ""] = [] := by decide
    rw [h4, List.nil_append, meldLines_flatten, List.map_map]
    have h5 : ((specs.dropLast.zip specs.tail).enum.map
        (meldLines ∘ fun p =>
          (compare_results (reporter_sum_file rp p.1 p.2.1)
            (reporter_sum_file rp (p.1 + 1) p.2.2)).1 ++ [Event.print ""])) =
        (specs.dropLast.zip specs.tail).enum.map fun p =>
          ["  meld " ++ reporter_sum_file rp p.1 p.2.1 ++ " " ++
            reporter_sum_file rp (p.1 + 1) p.2.2] :=
      List.map_congr_left fun p _ => meldLines_compare_block _ _
    rw [h5, flatten_map_singleton]
    simp
  · rw [if_neg hlen, if_neg hlen]
    simp [meldLines]

theorem meldLines_main_of_ok (env : Env) (args : Args) (b a : String)
    (hb : env.revParse args.before_ref = some b)
    (ha : env.revParse args.after_ref = some a)
    (hok : (main env args).2 = .ok)
    (hhex : args.all_commits = true →
      isShaStr (specsToTest env args (results_path_of env args) b a).head!.sha1 = true ∧
      isShaStr (specsToTest env args (results_path_of env args) b a).getLast!.sha1 = true) :
    meldLines (main env args).1 =
      (report_pairs (results_path_of env args)
        (specsToTest env args (results_path_of env args) b a)).map
        (fun p => "  meld " ++ p.1 ++ " " ++ p.2) := by
  rw [main_fst_of_ok env args b a hb ha hok, main_ok_events]
  repeat rw [meldLines_append]
  rw [meldLines_header_events env args b a _ hhex, meldLines_loop_events,
    meldLines_report]
  have h1 : meldLines (if args.dry_run then [] else [ .mkdtemp]) = [] := by
    split <;> rfl
  have h2 : meldLines
      [ .gitOut (rev_parse_cmd args.source args.before_ref),
        .gitOut (rev_parse_cmd args.source args.after_ref),
        .gitOut (rev_list_cmd args.source b a)] = [] := rfl
  have h3 : meldLines (if args.dry_run then [] else [ .sleep]) = [] := by
    split <;> rfl
  rw [h1, h2, h3]
  simp

theorem splitOnChar_ne_nil (sep : Char) (l : List Char) : splitOnChar sep l ≠ [] := by
  induction l with
  | nil => simp [splitOnChar]
  | cons c cs ih =>
    rw [splitOnChar]
    split
    · simp
    · split
      · simp
      · simp

theorem get_rev_list_ne_nil (env : Env) (b a : String) : get_rev_list env b a ≠ [] := by
  rw [get_rev_list]
  intro h
  rw [List.map_eq_nil_iff] at h
  exact splitOnChar_ne_nil _ _ h

theorem specsToTest_src_path (env : Env) (args : Args) (rp b a : String) :
    ∀ s ∈ specsToTest env args rp b a, s.src_path = args.source := by
  intro s hs
  rw [specsToTest] at hs
  revert hs
  split
  · intro hs
    obtain ⟨x, -, rfl⟩ := List.mem_map.mp hs
    rfl
  · intro hs
    simp only [List.mem_cons, List.not_mem_nil, or_false] at hs
    rcases hs with rfl | rfl <;> rfl

theorem specsToTest_sha1_mem (env : Env) (args : Args) (rp b a : String)
    (hac : args.all_commits = true) :
    ∀ s ∈ specsToTest env args rp b a, s.sha1 ∈ get_rev_list env b a := by
  intro s hs
  rw [specsToTest, if_pos hac] at hs
  obtain ⟨x, hx, rfl⟩ := List.mem_map.mp hs
  exact hx

theorem specsToTest_length_all (env : Env) (args : Args) (rp b a : String)
    (hac : args.all_commits = true) :
    (specsToTest env args rp b a).length = (get_rev_list env b a).length := by
  rw [specsToTest, if_pos hac, List.length_map]

theorem specsToTest_ne_nil (env : Env) (args : Args) (rp b a : String) :
    specsToTest env args rp b a ≠ [] := by
  rw [specsToTest]
  split
  · intro h
    rw [List.map_eq_nil_iff] at h
    exact get_rev_list_ne_nil env b a h
  · simp

theorem head!_mem {α : Type} [Inhabited α] {l : List α} (h : l ≠ []) : l.head! ∈ l := by
  cases l with
  | nil => exact absurd rfl h
  | cons x t => simp [List.head!]

theorem getLast!_mem {α : Type} [Inhabited α] {l : List α} (h : l ≠ []) : l.getLast! ∈ l := by
  cases l with
  | nil => exact absurd rfl h
  | cons x t =>
    rw [List.getLast!_cons]
    exact List.getLastD_mem_cons t x

theorem map_snd_enumFrom {α β : Type} (i : Nat) (l : List α) (f : α → β) :
    (List.enumFrom i l).map (fun p => f p.2) = l.map f := by
  induction l generalizing i with
  | nil => rfl
  | cons x t ih => simp [List.enumFrom, ih]

/-- C2: in all-commits mode, a completed run performs exactly one
checkout/build/test/copy cycle per revision of the revision list, in list
order (witnessed by the runner's `git checkout` lines), and when the list
has more than two entries the reporter prints one comparison block per
adjacent pair — `N - 1` of them — followed by a single first/last block. -/
theorem all_commits_cycles_and_comparisons (env : Env) (args : Args) (b a : String)
    (hac : args.all_commits = true)
    (hb : env.revParse args.before_ref = some b)
    (ha : env.revParse args.after_ref = some a)
    (hok : (main env args).2 = .ok)
    (hhex : ∀ r ∈ get_rev_list env b a, isShaStr r = true) :
    (execLines (main env args).1).filter (fun l => strStartsWith "git" l) =
      (get_rev_list env b a).map (fun c => checkout_line args.source c) ∧
    (2 < (get_rev_list env b a).length →
      meldLines (main env args).1 =
        (((specsToTest env args (results_path_of env args) b a).dropLast.zip
            (specsToTest env args (results_path_of env args) b a).tail).enum.map fun p =>
          "  meld " ++ reporter_sum_file (results_path_of env args) p.1 p.2.1 ++ " " ++
            reporter_sum_file (results_path_of env args) (p.1 + 1) p.2.2) ++
        ["  meld " ++ reporter_sum_file (results_path_of env args) 0
            (specsToTest env args (results_path_of env args) b a).head! ++ " " ++
          reporter_sum_file (results_path_of env args)
            ((get_rev_list env b a).length - 1)
            (specsToTest env args (results_path_of env args) b a).getLast!] ∧
      ((specsToTest env args (results_path_of env args) b a).dropLast.zip
          (specsToTest env args (results_path_of env args) b a).tail).enum.length =
        (get_rev_list env b a).length - 1) := by
  have hlen := specsToTest_length_all env args (results_path_of env args) b a hac
  have hnn := specsToTest_ne_nil env args (results_path_of env args) b a
  constructor
  · rw [execLines_main_of_ok env args b a hb ha hok, filter_flatten, List.map_map]
    have h1 : ((List.enumFrom 0 (specsToTest env args (results_path_of env args) b a)).map
        ((fun l => List.filter (fun l => strStartsWith "git" l) l) ∘
          fun p => cycle_lines p.2 (suffixOf p.1 p.2))) =
        (List.enumFrom 0 (specsToTest env args (results_path_of env args) b a)).map
          fun p => [checkout_line args.source p.2.sha1] := by
      apply List.map_congr_left
      intro p hp
      have hmem := List.snd_mem_of_mem_enumFrom hp
      have hsrc := specsToTest_src_path env args (results_path_of env args) b a p.2 hmem
      simp only [Function.comp_apply]
      rw [filter_git_cycle, hsrc]
    rw [h1, flatten_map_singleton]
    refine Eq.trans (map_snd_enumFrom 0
      (specsToTest env args (results_path_of env args) b a)
      (fun s => checkout_line args.source s.sha1)) ?_
    rw [specsToTest, if_pos hac, List.map_map]
    exact List.map_congr_left fun x _ => rfl
  · intro hN
    have hhex2 : args.all_commits = true →
        isShaStr (specsToTest env args (results_path_of env args) b a).head!.sha1 = true ∧
        isShaStr (specsToTest env args (results_path_of env args) b a).getLast!.sha1 =
          true := by
      intro _
      constructor
      · exact hhex _ (specsToTest_sha1_mem env args _ b a hac _ (head!_mem hnn))
      · exact hhex _ (specsToTest_sha1_mem env args _ b a hac _ (getLast!_mem hnn))
    constructor
    · rw [meldLines_main_of_ok env args b a hb ha hok hhex2, report_pairs,
        if_pos (by omega), List.map_append, hlen]
      simp
    · rw [List.enum_length, List.length_zip, List.length_dropLast, List.length_tail, hlen]
      omega

theorem executedLines_loop_events_real (i : Nat) (specs : List BuildAndTestSpec) :
    executedLines (loop_events i specs false) =
      ((List.enumFrom i specs).map fun p => cycle_lines p.2 (suffixOf p.1 p.2)).flatten := by
  rw [loop_events, executedLines_flatten, List.map_map]
  congr 1

theorem executedLines_main_of_ok_real (env : Env) (args : Args) (b a : String)
    (hd : args.dry_run = false)
    (hb : env.revParse args.before_ref = some b)
    (ha : env.revParse args.after_ref = some a)
    (hok : (main env args).2 = .ok) :
    executedLines (main env args).1 =
      ((List.enumFrom 0 (specsToTest env args (results_path_of env args) b a)).map
        fun p => cycle_lines p.2 (suffixOf p.1 p.2)).flatten := by
  rw [main_fst_of_ok env args b a hb ha hok, main_ok_events, hd]
  repeat rw [executedLines_append]
  rw [executedLines_loop_events_real,
    executedLines_nil_of_execLines (execLines_header_events env args b a _),
    executedLines_nil_of_execLines (execLines_report _ _)]
  simp [executedLines]

theorem get?_mem_enumFrom {α : Type} (l : List α) (i : Nat) (x : α) (j : Nat)
    (h : l.get? i = some x) : (j + i, x) ∈ List.enumFrom j l := by
  induction l generalizing i j with
  | nil => simp [List.get?] at h
  | cons y t ih =>
    cases i with
    | zero =>
      rw [List.get?] at h
      cases h
      simp [List.enumFrom]
    | succ i =>
      rw [List.get?] at h
      have h2 := ih i (j + 1) h
      rw [List.enumFrom]
      refine List.mem_cons.mpr (Or.inr ?_)
      have he : j + (i + 1) = (j + 1) + i := by omega
      rw [he]
      exact h2

theorem mem_enumFrom_get? {α : Type} (l : List α) (j : Nat) (p : Nat × α)
    (h : p ∈ List.enumFrom j l) : j ≤ p.1 ∧ l.get? (p.1 - j) = some p.2 := by
  induction l generalizing j with
  | nil => simp [List.enumFrom] at h
  | cons y t ih =>
    rw [List.enumFrom] at h
    rcases List.mem_cons.mp h with h1 | h1
    · rw [h1]
      simp [List.get?]
    · obtain ⟨h1le, h2⟩ := ih (j + 1) h1
      refine ⟨by omega, ?_⟩
      have he : p.1 - j = (p.1 - (j + 1)) + 1 := by omega
      rw [he, List.get?]
      exact h2

theorem get?_zero_head! {α : Type} [Inhabited α] (l : List α) (h : l ≠ []) :
    l.get? 0 = some l.head! := by
  cases l with
  | nil => exact absurd rfl h
  | cons x t => rfl

theorem get?_getLast! {α : Type} [Inhabited α] (l : List α) (h : l ≠ []) :
    l.get? (l.length - 1) = some l.getLast! := by
  induction l with
  | nil => exact absurd rfl h
  | cons x t ih =>
    cases t with
    | nil => rfl
    | cons y u =>
      have h2 := ih (by simp)
      have hl : (x :: y :: u).length - 1 = ((y :: u).length - 1) + 1 := by
        simp
      rw [hl, List.get?, h2]
      congr 1

theorem get?_dropLast {α : Type} (l : List α) (k : Nat) (h : k < l.length - 1) :
    l.dropLast.get? k = l.get? k := by
  simp [List.get?_eq_getElem?, List.getElem?_dropLast, h]

theorem get?_tail {α : Type} (l : List α) (k : Nat) : l.tail.get? k = l.get? (k + 1) := by
  simp [List.get?_eq_getElem?, List.getElem?_tail]

theorem get?_zip {α β : Type} {l1 : List α} {l2 : List β} {k : Nat} {x : α} {y : β}
    (h : (l1.zip l2).get? k = some (x, y)) : l1.get? k = some x ∧ l2.get? k = some y := by
  rw [List.get?_eq_getElem?, List.getElem?_zip_eq_some] at h
  constructor <;> simp [List.get?_eq_getElem?, h.1, h.2]

theorem reporter_sum_file_eq (rp : String) (i : Nat) (s : BuildAndTestSpec) :
    reporter_sum_file rp i s = rp ++ "/gdb.sum." ++ suffixOf i s := by
  rw [reporter_sum_file, suffixOf]
  simp [String.append_assoc]

theorem cp_sum_dest_executed (env : Env) (args : Args) (b a : String)
    (hd : args.dry_run = false)
    (hb : env.revParse args.before_ref = some b)
    (ha : env.revParse args.after_ref = some a)
    (hok : (main env args).2 = .ok) (i : Nat) (s : BuildAndTestSpec)
    (hget : (specsToTest env args (results_path_of env args) b a).get? i = some s) :
    cp_line (sum_src s.build_path) (reporter_sum_file (results_path_of env args) i s) ∈
      executedLines (main env args).1 := by
  rw [executedLines_main_of_ok_real env args b a hd hb ha hok, List.mem_flatten]
  refine ⟨cycle_lines s (suffixOf i s), ?_, ?_⟩
  · apply List.mem_map.mpr
    refine ⟨(i, s), ?_, rfl⟩
    have h2 := get?_mem_enumFrom _ i s 0 hget
    simpa using h2
  · have hmem : s ∈ specsToTest env args (results_path_of env args) b a :=
      List.get?_mem hget
    have hr := specsToTest_results_path env args (results_path_of env args) b a s hmem
    rw [reporter_sum_file_eq, ← hr]
    simp [cycle_lines]

/-- C4: in a completed non-dry run the reporter's `meld` lines are exactly
one per comparison pair, and every `gdb.sum` filename those comparison
commands reference is the destination of a copy command the runner actually
executed in the same run. -/
theorem reporter_references_produced_files (env : Env) (args : Args) (b a : String)
    (hd : args.dry_run = false)
    (hb : env.revParse args.before_ref = some b)
    (ha : env.revParse args.after_ref = some a)
    (hok : (main env args).2 = .ok)
    (hhex : args.all_commits = true → ∀ r ∈ get_rev_list env b a, isShaStr r = true) :
    meldLines (main env args).1 =
      (report_pairs (results_path_of env args)
        (specsToTest env args (results_path_of env args) b a)).map
        (fun p => "  meld " ++ p.1 ++ " " ++ p.2) ∧
    ∀ f ∈ (report_pairs (results_path_of env args)
        (specsToTest env args (results_path_of env args) b a)).flatMap
          (fun p => [p.1, p.2]),
      ∃ src, cp_line src f ∈ executedLines (main env args).1 := by
  have hnn := specsToTest_ne_nil env args (results_path_of env args) b a
  constructor
  · apply meldLines_main_of_ok env args b a hb ha hok
    intro hac
    constructor
    · exact hhex hac _ (specsToTest_sha1_mem env args _ b a hac _ (head!_mem hnn))
    · exact hhex hac _ (specsToTest_sha1_mem env args _ b a hac _ (getLast!_mem hnn))
  · intro f hf
    rw [List.mem_flatMap] at hf
    obtain ⟨p, hp, hfp⟩ := hf
    rw [report_pairs] at hp
    rcases List.mem_append.mp hp with hp1 | hp1
    · have hp2 : p ∈ ((specsToTest env args (results_path_of env args) b a).dropLast.zip
          (specsToTest env args (results_path_of env args) b a).tail).enum.map fun q =>
            (reporter_sum_file (results_path_of env args) q.1 q.2.1,
             reporter_sum_file (results_path_of env args) (q.1 + 1) q.2.2) := by
        revert hp1
        split
        · exact id
        · intro hp1
          exact absurd hp1 (List.not_mem_nil p)
      obtain ⟨q, hq, rfl⟩ := List.mem_map.mp hp2
      obtain ⟨-, hget⟩ := mem_enumFrom_get? _ 0 q hq
      rw [Nat.sub_zero] at hget
      rcases hq2 : ((specsToTest env args (results_path_of env args) b a).dropLast.zip
          (specsToTest env args (results_path_of env args) b a).tail).get? q.1 with _ | xy
      · rw [hq2] at hget
        exact Option.noConfusion hget
      · rw [hq2] at hget
        cases hget
        obtain ⟨hgx, hgy⟩ := get?_zip hq2
        have hlt : q.1 < (specsToTest env args (results_path_of env args) b a).length - 1 := by
          have h3 := List.get?_eq_some.mp hgx
          obtain ⟨hlt2, -⟩ := h3
          rw [List.length_dropLast] at hlt2
          exact hlt2
        rw [get?_dropLast _ _ hlt] at hgx
        rw [get?_tail] at hgy
        simp only [List.mem_cons, List.not_mem_nil, or_false] at hfp
        rcases hfp with rfl | rfl
        · exact ⟨sum_src q.2.1.build_path,
            cp_sum_dest_executed env args b a hd hb ha hok q.1 q.2.1 hgx⟩
        · exact ⟨sum_src q.2.2.build_path,
            cp_sum_dest_executed env args b a hd hb ha hok (q.1 + 1) q.2.2 hgy⟩
    · simp only [List.mem_singleton] at hp1
      subst hp1
      simp only [List.mem_cons, List.not_mem_nil, or_false] at hfp
      rcases hfp with rfl | rfl
      · exact ⟨sum_src (specsToTest env args (results_path_of env args) b a).head!.build_path,
          cp_sum_dest_executed env args b a hd hb ha hok 0 _ (get?_zero_head! _ hnn)⟩
      · refine ⟨sum_src
          (specsToTest env args (results_path_of env args) b a).getLast!.build_path, ?_⟩
        exact cp_sum_dest_executed env args b a hd hb ha hok _ _ (get?_getLast! _ hnn)

/-- Closed witness for the C4 theorem. -/
theorem reporter_references_produced_files_witness :
    meldLines (main envW (setDry argsW false)).1 =
      (report_pairs (results_path_of envW (setDry argsW false))
        (specsToTest envW (setDry argsW false) (results_path_of envW (setDry argsW false))
          "aaaabbbbccccddddeeeeffff0000111122223333"
          "0000111122223333aaaabbbbccccddddeeeeffff")).map
        (fun p => "  meld " ++ p.1 ++ " " ++ p.2) :=
  (reporter_references_produced_files envW (setDry argsW false)
    "aaaabbbbccccddddeeeeffff0000111122223333"
    "0000111122223333aaaabbbbccccddddeeeeffff"
    rfl (by decide) (by decide) (by decide) (by decide)).1

/-- Closed witness for the C2 theorem. -/
theorem all_commits_cycles_and_comparisons_witness :
    ((0 : Nat) = 0) ∧
    (execLines (main envW argsWAll).1).filter (fun l => strStartsWith "git" l) =
      (get_rev_list envW "aaaabbbbccccddddeeeeffff0000111122223333"
          "0000111122223333aaaabbbbccccddddeeeeffff").map
        (fun c => checkout_line "/src" c) :=
  ⟨rfl,
   (all_commits_cycles_and_comparisons envW argsWAll
      "aaaabbbbccccddddeeeeffff0000111122223333"
      "0000111122223333aaaabbbbccccddddeeeeffff"
      rfl (by decide) (by decide) (by decide) (by decide)).1⟩

/-- Closed witness for the C7 theorem. -/
theorem pipeline_order_witness :
    (main envW argsW).2 = .ok ∧
    execLines (main envW argsW).1 =
      ((List.enumFrom 0 (specsToTest envW argsW (results_path_of envW argsW)
          "aaaabbbbccccddddeeeeffff0000111122223333"
          "0000111122223333aaaabbbbccccddddeeeeffff")).map
        fun p => cycle_lines p.2 (suffixOf p.1 p.2)).flatten :=
  ⟨by decide,
   pipeline_order envW argsW "aaaabbbbccccddddeeeeffff0000111122223333"
     "0000111122223333aaaabbbbccccddddeeeeffff" (by decide) (by decide) (by decide)⟩

end GdbCheck
